import Mathlib

set_option linter.unusedVariables false

namespace Pits

/-- Archive modes, from the `ArchiveMode` enum in `cogs/hideout/pits.py`
(string values "leave", "inactive", "manual"; there is no "automatic" member). -/
inductive ArchiveMode : Type
  | leave
  | inactive
  | manual
deriving DecidableEq, Repr

/-- The string value of each `ArchiveMode` member, as in the Python enum. -/
def ArchiveMode.value : ArchiveMode → String
  | .leave => "leave"
  | .inactive => "inactive"
  | .manual => "manual"

/-- Archive durations, from the `ArchiveDuration` enum in `cogs/hideout/pits.py`
(integer values 86400, 259200, 604800, 2419200 seconds). -/
inductive ArchiveDuration : Type
  | twentyFourHours
  | threeDays
  | oneWeek
  | oneMonth
deriving DecidableEq, Repr

/-- The integer value of each `ArchiveDuration` member. -/
def ArchiveDuration.value : ArchiveDuration → Int
  | .twentyFourHours => 86400
  | .threeDays => 259200
  | .oneWeek => 604800
  | .oneMonth => 2419200

/-- Enum lookup by value, `ArchiveDuration(n)` in Python: returns the member whose
value is `n`, or `none` when `n` is not a member value (Python raises `ValueError`). -/
def ArchiveDuration.fromValue (n : Int) : Option ArchiveDuration :=
  if n = 86400 then some .twentyFourHours
  else if n = 259200 then some .threeDays
  else if n = 604800 then some .oneWeek
  else if n = 2419200 then some .oneMonth
  else none

/-- The numeric value of a decimal digit character, `none` otherwise. -/
def digitVal (c : Char) : Option Nat :=
  if c.isDigit then some (c.toNat - 48) else none

/-- Continuation of `parseDigitsU`: digits already begun, underscores allowed
only between digits (CPython grammar `digit (["_"] digit)*`). -/
def parseDigitsUGo (acc : Nat) : List Char → Option Nat
  | [] => some acc
  | '_' :: c :: rest =>
    match digitVal c with
    | some d => parseDigitsUGo (acc * 10 + d) rest
    | none => none
  | c :: rest =>
    match digitVal c with
    | some d => parseDigitsUGo (acc * 10 + d) rest
    | none => none

/-- Parse a non-empty digit run with optional single underscores between digits,
as accepted by CPython `int()`. -/
def parseDigitsU : List Char → Option Nat
  | [] => none
  | '_' :: _ => none
  | c :: rest =>
    match digitVal c with
    | some d => parseDigitsUGo d rest
    | none => none

/-- Model of CPython `int(argument)` on a string: optional surrounding whitespace,
optional single sign, then digits (with underscore separators). `none` models the
`ValueError` that `int()` raises on malformed input. -/
def pyParseInt (s : String) : Option Int :=
  let cs := ((s.toList.dropWhile Char.isWhitespace).reverse.dropWhile Char.isWhitespace).reverse
  match cs with
  | '+' :: rest => (parseDigitsU rest).map (fun n => (n : Int))
  | '-' :: rest => (parseDigitsU rest).map (fun n => -(n : Int))
  | rest => (parseDigitsU rest).map (fun n => (n : Int))

/-- The two failure modes of `ArchiveDuration.convert`: `badArgument` models the
`commands.BadArgument` raised when `int(argument)` fails; `valueError` models the
uncaught `ValueError` escaping from the `ArchiveDuration(as_integer)` enum lookup. -/
inductive ConvertError : Type
  | badArgument (message : String)
  | valueError
deriving DecidableEq, Repr

/-- `ArchiveDuration.convert` from `cogs/hideout/pits.py` lines 40-47: try
`int(argument)`; on `ValueError` raise `BadArgument`; otherwise return
`cls(as_integer)`, whose enum lookup raises an uncaught `ValueError` for an
integer that is not a member value. -/
def ArchiveDuration.convert (argument : String) : Except ConvertError ArchiveDuration :=
  match pyParseInt argument with
  | none => .error (.badArgument ("Invalid archive duration passed: " ++ argument))
  | some n =>
    match ArchiveDuration.fromValue n with
    | some d => .ok d
    | none => .error .valueError

/-- One row of the `pits` table, the columns `auto_archival` selects
(`SELECT pit_id, archive_duration, archive_mode, last_message_sent_at FROM pits`).
Timestamps are modelled as integers; `archive_duration` is the raw stored integer
(validated against the enum only at firing time, via `ArchiveDuration.fromValue`). -/
structure PitRecord : Type where
  pit_id : Nat
  archive_duration : Int
  archive_mode : Option ArchiveMode
  last_message_sent_at : Option Int
deriving DecidableEq, Repr

/-- What the scheduler observes about a channel returned by `bot.get_channel`:
whether it is a `TextChannel`, whether it sits in the archive category
(`pit in archive_category_found.text_channels`), the `created_at` timestamp, and
the result of `_try_get_latest_message` (the latest message's `created_at`, if any). -/
structure Channel : Type where
  isTextChannel : Bool
  inArchiveCategory : Bool
  created_at : Int
  latestMessage : Option Int
deriving DecidableEq, Repr

/-- The external state one `auto_archival` pass reads: the channel cache
(`bot.get_channel`, as an association list on channel ids) and the current clock
`NOW = datetime.datetime.now()`. -/
structure World : Type where
  channels : List (Nat × Channel)
  now : Int
deriving DecidableEq, Repr

/-- `bot.get_channel(id)`: first cache entry with the given id, if any. -/
def World.getChannel (w : World) (id : Nat) : Option Channel :=
  (w.channels.find? (fun p => p.1 == id)).map (fun p => p.2)

/-- `_try_get_latest_message` followed by the `created_at` fallback
(`pits.py` lines 101-106 and 129-135): the latest message's timestamp when one
exists, else the channel's creation timestamp. -/
def fallbackTimestamp (pit : Channel) : Int :=
  match pit.latestMessage with
  | some m => m
  | none => pit.created_at

/-- The validity filter of `auto_archival` (`pits.py` lines 78-92) applied to one
record: `none` when the record falls into the invalidation branch (`pit is None`,
not a text channel, already in the archive category, `last_message_sent_at` null,
or `last_message_sent_at <= NOW`); otherwise `some (pit, last_message_sent_at)`.
Note the filter never reads `archive_mode`. -/
def recordStatus (w : World) (r : PitRecord) : Option (Channel × Int) :=
  match w.getChannel r.pit_id with
  | none => none
  | some pit =>
    if !pit.isTextChannel || pit.inArchiveCategory then none
    else
      match r.last_message_sent_at with
      | none => none
      | some t => if t ≤ w.now then none else some (pit, t)

/-- A record survives the validity filter. -/
def isValid (w : World) (r : PitRecord) : Bool :=
  (recordStatus w r).isSome

/-- The cached timestamp of a record that passed the filter (0 for an invalid
record; only used on valid records). -/
def statusTime (w : World) (r : PitRecord) : Int :=
  match recordStatus w r with
  | some p => p.2
  | none => 0

/-- The spec's Deadline Resolver applied to a record the filter accepts: the
cached activity timestamp plus the record's own `archive_duration`. -/
def resolvedDeadline (w : World) (r : PitRecord) : Option Int :=
  (recordStatus w r).map (fun p => p.2 + r.archive_duration)

/-- The scan of `auto_archival` (`pits.py` lines 77-113), carrying the running
`shortest` record and the accumulated `pit_ids_to_invalidate`. An invalid record
is appended to the prune list; the first valid record seeds `shortest`; afterwards
the comparison is on raw `last_message_sent_at` timestamps (`pits.py` line 112),
with the live fallback of lines 100-106 — which reads the CURRENT record's
channel `pit`, not the shortest record's — when `shortest` has a null timestamp. -/
def selectAux (w : World) (shortest : Option PitRecord) (prune : List Nat) :
    List PitRecord → Option PitRecord × List Nat
  | [] => (shortest, prune)
  | r :: rest =>
    match recordStatus w r with
    | none => selectAux w shortest (prune ++ [r.pit_id]) rest
    | some (pit, last) =>
      match shortest with
      | none => selectAux w (some r) prune rest
      | some s =>
        let sLast :=
          match s.last_message_sent_at with
          | some t => t
          | none => fallbackTimestamp pit
        if last < sLast then selectAux w (some r) prune rest
        else selectAux w (some s) prune rest

/-- The candidate-selection pass of `auto_archival`: returns the `shortest`
record (the candidate) and `pit_ids_to_invalidate` (the ids deleted from the
store at line 115). -/
def select (w : World) (records : List PitRecord) : Option PitRecord × List Nat :=
  selectAux w none [] records

/-- The observable actions one `auto_archival` pass (or one command handler)
issues, in order. `storeDelete` is the `executemany DELETE FROM pits` of line 115;
`sleep` is `asyncio.sleep`; `editChannel` is the auto-archival
`edit(category=archive, sync_permissions=True)` of line 148 (no explicit
overwrites, no store write); `editChannelOverwrites` is the command-path
`edit(overwrites=..., category=archive)`; `storeUpdateMode` /
`storeUpdateDuration` are `UPDATE pits SET ...`; `restartScheduler` is
`self.auto_archival.restart()`; `crash` marks an uncaught exception. -/
inductive SchedOp : Type
  | storeDelete (ids : List Nat)
  | sleep (seconds : Int)
  | editChannel (id : Nat)
  | editChannelOverwrites (id : Nat)
  | storeUpdateMode (id : Nat) (mode : Option String)
  | storeUpdateDuration (id : Nat) (seconds : Int)
  | sendMessage (id : Nat)
  | restartScheduler
  | crash
deriving DecidableEq, Repr

/-- One full body of the `auto_archival` task (`pits.py` lines 66-152) as the
ordered trace of its store/sleep/channel actions. After the scan, the prune
deletion is issued (line 115); with no candidate the pass sleeps 60 seconds
(line 118); otherwise the candidate's channel is looked up again (lines 120-124),
its timestamp resolved with the live fallback (lines 127-135), the enum lookup
`ArchiveDuration(shortest['archive_duration'])` performed (line 140 — an uncaught
`ValueError` if the stored value is not a member), and the pass sleeps until
`last + duration` and edits the channel into the archive category (no store
write follows the edit). -/
def autoArchivalPass (w : World) (records : List PitRecord) : List SchedOp :=
  let res := select w records
  let deleted := SchedOp.storeDelete res.2
  match res.1 with
  | none => [deleted, SchedOp.sleep 60]
  | some s =>
    match w.getChannel s.pit_id with
    | none => [deleted]
    | some pit =>
      if !pit.isTextChannel then [deleted]
      else
        let sLast :=
          match s.last_message_sent_at with
          | some t => t
          | none => fallbackTimestamp pit
        match ArchiveDuration.fromValue s.archive_duration with
        | none => [deleted, SchedOp.crash]
        | some d =>
          [deleted, SchedOp.sleep (sLast + d.value - w.now), SchedOp.editChannel s.pit_id]

/-- Effect of the line-115 deletion on the store: rows whose `pit_id` is listed
are removed, order of the rest preserved. -/
def applyDelete (store : List PitRecord) (ids : List Nat) : List PitRecord :=
  store.filter (fun r => !(ids.contains r.pit_id))

/-- Success path of the `pit setduration` command (`pits.py` lines 493-502):
update the stored duration, then restart the scheduler loop. -/
def pit_set_duration_ops (channelId : Nat) (d : ArchiveDuration) : List SchedOp :=
  [SchedOp.storeUpdateDuration channelId d.value, SchedOp.restartScheduler]

/-- Success path of the `pit archive` command (`pits.py` lines 415-451): edit the
channel (explicit overwrites + archive category), set `archive_mode = 'manual'`,
send the confirmation. No scheduler restart. -/
def pit_archive_ops (pitId : Nat) : List SchedOp :=
  [SchedOp.editChannelOverwrites pitId, SchedOp.storeUpdateMode pitId (some "manual"),
   SchedOp.sendMessage pitId]

/-- Success path of the `pit unarchive` command (`pits.py` lines 453-491): edit
the channel back, set `archive_mode = NULL`, send the confirmation. No scheduler
restart. -/
def pit_unarchive_ops (pitId : Nat) : List SchedOp :=
  [SchedOp.editChannelOverwrites pitId, SchedOp.storeUpdateMode pitId none,
   SchedOp.sendMessage pitId]

/-- Success path of the `on_member_remove` auto-archive listener (`pits.py`
lines 591-628): edit the channel, set `archive_mode = 'leave'`, announce. No
scheduler restart. -/
def pit_auto_archive_on_member_remove_ops (pitId : Nat) : List SchedOp :=
  [SchedOp.editChannelOverwrites pitId, SchedOp.storeUpdateMode pitId (some "leave"),
   SchedOp.sendMessage pitId]

/-- Success path of the `on_member_join` auto-unarchive listener (`pits.py`
lines 630-664): edit the channel, set `archive_mode = NULL`, announce. No
scheduler restart. -/
def pit_auto_unarchive_on_member_join_ops (pitId : Nat) : List SchedOp :=
  [SchedOp.editChannelOverwrites pitId, SchedOp.storeUpdateMode pitId none,
   SchedOp.sendMessage pitId]

/-- A concrete text channel (created at time 50) for example states. -/
def textChannel (arch : Bool) (lm : Option Int) : Channel :=
  ⟨true, arch, 50, lm⟩

/-- Example world at time 0 with two live pit channels (ids 1 and 2), neither in
the archive category. -/
def deadlineWorld : World :=
  ⟨[(1, textChannel false none), (2, textChannel false none)], 0⟩

/-- Record for channel 1: 24-hour duration, cached activity at time 10, so its
resolved deadline is 10 + 86400 = 86410. -/
def recShortDuration : PitRecord :=
  ⟨1, 86400, none, some 10⟩

/-- Record for channel 2: one-month duration, cached activity at time 5, so its
resolved deadline is 5 + 2419200 = 2419205. -/
def recLongDuration : PitRecord :=
  ⟨2, 2419200, none, some 5⟩

/-- Example world at time 0 whose only channel (id 3) sits in the archive
category. -/
def archivedWorld : World :=
  ⟨[(3, textChannel true (some 7))], 0⟩

/-- Record for channel 3: manually archived (`archive_mode = 'manual'`), cached
activity at time 100. -/
def recManualArchived : PitRecord :=
  ⟨3, 259200, some ArchiveMode.manual, some 100⟩

/-- Example world at time 1000000 with one live pit channel (id 7). -/
def pastDeadlineWorld : World :=
  ⟨[(7, textChannel false (some 7))], 1000000⟩

/-- Record for channel 7: cached activity at time 500 and 24-hour duration, so
its resolved deadline 500 + 86400 = 86900 is already in the past at time
1000000. -/
def recPastDeadline : PitRecord :=
  ⟨7, 86400, none, some 500⟩

/-- Example world at time 0 with one live pit channel (id 9) whose latest
message exists (timestamp 123). -/
def nullCacheWorld : World :=
  ⟨[(9, textChannel false (some 123))], 0⟩

/-- Record for channel 9 with no cached `last_message_sent_at`. -/
def recNullCache : PitRecord :=
  ⟨9, 86400, none, none⟩

/-- A record accepted by the validity filter carries its own cached timestamp:
`recordStatus` only returns `some (pit, t)` with `t` drawn from
`last_message_sent_at`. -/
theorem recordStatus_last (w : World) (r : PitRecord) (ch : Channel) (t : Int)
    (h : recordStatus w r = some (ch, t)) : r.last_message_sent_at = some t := by
  unfold recordStatus at h
  split at h
  · exact absurd h (by simp)
  · split at h
    · exact absurd h (by simp)
    · split at h
      · exact absurd h (by simp)
      · split at h
        · exact absurd h (by simp)
        · rename_i hl _
          injection h with h'
          rw [Prod.mk.injEq] at h'
          rw [← h'.2]
          exact hl

/-- Inversion of the validity filter on the channel side: a record it accepts
has a cached channel that is a text channel outside the archive category. -/
theorem recordStatus_channel (w : World) (r : PitRecord) (ch : Channel) (t : Int)
    (h : recordStatus w r = some (ch, t)) :
    w.getChannel r.pit_id = some ch ∧ ch.isTextChannel = true ∧
    ch.inArchiveCategory = false := by
  unfold recordStatus at h
  split at h
  · exact absurd h (by simp)
  · rename_i pit hg
    split at h
    · exact absurd h (by simp)
    · rename_i hcond
      split at h
      · exact absurd h (by simp)
      · split at h
        · exact absurd h (by simp)
        · injection h with h'
          rw [Prod.mk.injEq] at h'
          rw [← h'.1]
          have hcase : pit.isTextChannel = true ∧ pit.inArchiveCategory = false := by
            revert hcond
            cases pit.isTextChannel <;> cases pit.inArchiveCategory <;> simp
          exact ⟨hg, hcase.1, hcase.2⟩

/-- `statusTime` of a record with a known status. -/
theorem statusTime_eq (w : World) (r : PitRecord) (ch : Channel) (t : Int)
    (h : recordStatus w r = some (ch, t)) : statusTime w r = t := by
  unfold statusTime
  rw [h]

/-- The prune list accumulated by the scan is the input prune list followed by
the ids of exactly the records that fail the validity filter, in order. -/
theorem selectAux_prune (w : World) :
    ∀ (l : List PitRecord) (sh : Option PitRecord) (p : List Nat),
      (selectAux w sh p l).2 =
        p ++ (l.filter (fun r => !isValid w r)).map (fun r => r.pit_id) := by
  intro l
  induction l with
  | nil => intro sh p; simp [selectAux]
  | cons r rest ih =>
    intro sh p
    cases hs : recordStatus w r with
    | none =>
      have hv : (!isValid w r) = true := by simp [isValid, hs]
      simp only [selectAux, hs, List.filter_cons, hv, List.map_cons, ih]
      simp
    | some val =>
      obtain ⟨pit, last⟩ := val
      have hv : (!isValid w r) = false := by simp [isValid, hs]
      cases sh with
      | none =>
        simp only [selectAux, hs, List.filter_cons, hv, ih]
        simp
      | some s =>
        simp only [selectAux, hs, List.filter_cons, hv]
        split
        · rw [ih]; simp
        · rw [ih]; simp

/-- The candidate computed by the scan does not depend on the prune
accumulator. -/
theorem selectAux_fst_prune (w : World) :
    ∀ (l : List PitRecord) (sh : Option PitRecord) (p q : List Nat),
      (selectAux w sh p l).1 = (selectAux w sh q l).1 := by
  intro l
  induction l with
  | nil => intro sh p q; simp [selectAux]
  | cons r rest ih =>
    intro sh p q
    cases hs : recordStatus w r with
    | none => simp only [selectAux, hs]; exact ih _ _ _
    | some val =>
      obtain ⟨pit, last⟩ := val
      cases sh with
      | none => simp only [selectAux, hs]; exact ih _ _ _
      | some s =>
        simp only [selectAux, hs]
        split
        · exact ih _ _ _
        · exact ih _ _ _

/-- Dropping the invalid records from the input does not change the computed
candidate: the scan ignores them except for pruning. -/
theorem selectAux_fst_filter (w : World) :
    ∀ (l : List PitRecord) (sh : Option PitRecord) (p : List Nat),
      (selectAux w sh p (l.filter (fun r => isValid w r))).1 = (selectAux w sh p l).1 := by
  intro l
  induction l with
  | nil => intro sh p; simp [selectAux]
  | cons r rest ih =>
    intro sh p
    cases hs : recordStatus w r with
    | none =>
      have hv : isValid w r = false := by simp [isValid, hs]
      have hfil : (r :: rest).filter (fun x => isValid w x) =
          rest.filter (fun x => isValid w x) := by
        rw [List.filter_cons, hv]; simp
      rw [hfil, ih]
      simp only [selectAux, hs]
      exact selectAux_fst_prune w rest sh p (p ++ [r.pit_id])
    | some val =>
      obtain ⟨pit, last⟩ := val
      have hv : isValid w r = true := by simp [isValid, hs]
      have hfil : (r :: rest).filter (fun x => isValid w x) =
          r :: rest.filter (fun x => isValid w x) := by
        rw [List.filter_cons, hv]; simp
      rw [hfil]
      cases sh with
      | none =>
        simp only [selectAux, hs]
        exact ih _ _
      | some s =>
        simp only [selectAux, hs]
        split
        · exact ih _ _
        · exact ih _ _

/-- If every record of the input is invalid, the scan never sets `shortest`. -/
theorem selectAux_none_of_all_invalid (w : World) :
    ∀ (l : List PitRecord), (∀ r ∈ l, isValid w r = false) →
      ∀ p, (selectAux w none p l).1 = none := by
  intro l
  induction l with
  | nil => intro _ p; simp [selectAux]
  | cons r rest ih =>
    intro hall p
    cases hs : recordStatus w r with
    | none =>
      simp only [selectAux, hs]
      exact ih (fun x hx => hall x (List.mem_cons_of_mem _ hx)) _
    | some val =>
      have := hall r (List.mem_cons_self _ _)
      rw [isValid, hs] at this
      exact absurd this (by simp)

/-- Once `shortest` is set, the scan never unsets it. -/
theorem selectAux_fst_isSome (w : World) :
    ∀ (l : List PitRecord) (s : PitRecord) (p : List Nat),
      (selectAux w (some s) p l).1 ≠ none := by
  intro l
  induction l with
  | nil => intro s p; simp [selectAux]
  | cons r rest ih =>
    intro s p
    cases hs : recordStatus w r with
    | none => simp only [selectAux, hs]; exact ih _ _
    | some val =>
      obtain ⟨pit, last⟩ := val
      simp only [selectAux, hs]
      split
      · exact ih _ _
      · exact ih _ _

/-- If some record of the input is valid, the scan returns a candidate. -/
theorem selectAux_fst_some_of_exists (w : World) :
    ∀ (l : List PitRecord) (p : List Nat), (∃ r ∈ l, isValid w r = true) →
      (selectAux w none p l).1 ≠ none := by
  intro l
  induction l with
  | nil => intro p h; obtain ⟨r, hr, _⟩ := h; exact absurd hr (List.not_mem_nil r)
  | cons r rest ih =>
    intro p h
    cases hs : recordStatus w r with
    | none =>
      simp only [selectAux, hs]
      apply ih
      obtain ⟨x, hx, hvx⟩ := h
      rcases List.mem_cons.mp hx with hx | hx
      · rw [hx] at hvx; rw [isValid, hs] at hvx; exact absurd hvx (by simp)
      · exact ⟨x, hx, hvx⟩
    | some val =>
      obtain ⟨pit, last⟩ := val
      simp only [selectAux, hs]
      exact selectAux_fst_isSome w rest r p

/-- Minimality of the scan with a valid seed: any candidate it returns is valid,
comes from the seed or the input, and its cached timestamp is a lower bound for
the seed's and every valid input record's cached timestamp. -/
theorem selectAux_min (w : World) :
    ∀ (l : List PitRecord) (s : PitRecord) (p : List Nat),
      isValid w s = true →
      ∀ c, (selectAux w (some s) p l).1 = some c →
        isValid w c = true ∧ (c = s ∨ c ∈ l) ∧ statusTime w c ≤ statusTime w s ∧
        ∀ r ∈ l, isValid w r = true → statusTime w c ≤ statusTime w r := by
  intro l
  induction l with
  | nil =>
    intro s p hvs c hc
    simp only [selectAux] at hc
    injection hc with hc
    rw [← hc]
    exact ⟨hvs, Or.inl rfl, le_refl _, fun r hr => absurd hr (List.not_mem_nil r)⟩
  | cons r rest ih =>
    intro s p hvs c hc
    cases hs : recordStatus w r with
    | none =>
      simp only [selectAux, hs] at hc
      obtain ⟨h1, h2, h3, h4⟩ := ih s (p ++ [r.pit_id]) hvs c hc
      refine ⟨h1, ?_, h3, ?_⟩
      · rcases h2 with h2 | h2
        · exact Or.inl h2
        · exact Or.inr (List.mem_cons_of_mem _ h2)
      · intro x hx hvx
        rcases List.mem_cons.mp hx with hx | hx
        · rw [hx] at hvx; rw [isValid, hs] at hvx; exact absurd hvx (by simp)
        · exact h4 x hx hvx
    | some val =>
      obtain ⟨pit, last⟩ := val
      have hvr : isValid w r = true := by simp [isValid, hs]
      have hsr : statusTime w r = last := statusTime_eq w r pit last hs
      obtain ⟨⟨chs, ts⟩, hss⟩ := Option.isSome_iff_exists.mp (by rw [isValid] at hvs; exact hvs)
      have hsl : s.last_message_sent_at = some ts := recordStatus_last w s chs ts hss
      have hst : statusTime w s = ts := statusTime_eq w s chs ts hss
      simp only [selectAux, hs, hsl] at hc
      by_cases hlt : last < ts
      · rw [if_pos hlt] at hc
        obtain ⟨h1, h2, h3, h4⟩ := ih r p hvr c hc
        rw [hsr] at h3
        refine ⟨h1, ?_, ?_, ?_⟩
        · rcases h2 with h2 | h2
          · exact Or.inr (h2 ▸ List.mem_cons_self _ _)
          · exact Or.inr (List.mem_cons_of_mem _ h2)
        · rw [hst]; exact le_of_lt (lt_of_le_of_lt h3 hlt)
        · intro x hx hvx
          rcases List.mem_cons.mp hx with hx | hx
          · rw [hx, hsr]; exact h3
          · exact h4 x hx hvx
      · rw [if_neg hlt] at hc
        obtain ⟨h1, h2, h3, h4⟩ := ih s p hvs c hc
        refine ⟨h1, ?_, h3, ?_⟩
        · rcases h2 with h2 | h2
          · exact Or.inl h2
          · exact Or.inr (List.mem_cons_of_mem _ h2)
        · intro x hx hvx
          rcases List.mem_cons.mp hx with hx | hx
          · rw [hx, hsr, ← hst] at *
            exact le_trans h3 (le_of_not_lt (by rw [hst] at hlt; rw [hsr]; exact hlt))
          · exact h4 x hx hvx

/-- Minimality of the full selection pass: a returned candidate is a valid input
record whose cached `last_message_sent_at` is minimal among the valid records. -/
theorem select_min (w : World) :
    ∀ (l : List PitRecord) (p : List Nat) (c : PitRecord),
      (selectAux w none p l).1 = some c →
      isValid w c = true ∧ c ∈ l ∧
      ∀ r ∈ l, isValid w r = true → statusTime w c ≤ statusTime w r := by
  intro l
  induction l with
  | nil =>
    intro p c hc
    simp [selectAux] at hc
  | cons r rest ih =>
    intro p c hc
    cases hs : recordStatus w r with
    | none =>
      simp only [selectAux, hs] at hc
      obtain ⟨h1, h2, h3⟩ := ih (p ++ [r.pit_id]) c hc
      refine ⟨h1, List.mem_cons_of_mem _ h2, ?_⟩
      intro x hx hvx
      rcases List.mem_cons.mp hx with hx | hx
      · rw [hx] at hvx; rw [isValid, hs] at hvx; exact absurd hvx (by simp)
      · exact h3 x hx hvx
    | some val =>
      obtain ⟨pit, last⟩ := val
      have hvr : isValid w r = true := by simp [isValid, hs]
      simp only [selectAux, hs] at hc
      obtain ⟨h1, h2, h3, h4⟩ := selectAux_min w rest r p hvr c hc
      refine ⟨h1, ?_, ?_⟩
      · rcases h2 with h2 | h2
        · exact h2 ▸ List.mem_cons_self _ _
        · exact List.mem_cons_of_mem _ h2
      · intro x hx hvx
        rcases List.mem_cons.mp hx with hx | hx
        · rw [hx]; exact h3
        · exact h4 x hx hvx

/-- The pruned ids of the full selection pass, without the accumulator. -/
theorem select_prune (w : World) (l : List PitRecord) :
    (select w l).2 = (l.filter (fun r => !isValid w r)).map (fun r => r.pit_id) := by
  show (selectAux w none [] l).2 = _
  rw [selectAux_prune]
  simp

/-- Under the table's primary-key constraint (pairwise distinct `pit_id`s),
the line-115 deletion leaves exactly the records that passed the filter. -/
theorem applyDelete_select (w : World) (l : List PitRecord)
    (hnd : (l.map (fun r => r.pit_id)).Nodup) :
    applyDelete l (select w l).2 = l.filter (fun r => isValid w r) := by
  rw [select_prune]
  unfold applyDelete
  apply List.filter_congr
  intro r hr
  cases hv : isValid w r with
  | true =>
    have hnot : r.pit_id ∉ (l.filter (fun x => !isValid w x)).map (fun x => x.pit_id) := by
      intro hmem
      obtain ⟨x, hx, heq⟩ := List.mem_map.mp hmem
      have hxl : x ∈ l := List.mem_of_mem_filter hx
      have hxv : (!isValid w x) = true := (List.mem_filter.mp hx).2
      have hxr : x = r := List.inj_on_of_nodup_map hnd hxl hr heq
      rw [hxr, hv] at hxv
      exact absurd hxv (by simp)
    simp [hnot, hv]
  | false =>
    have hmem : r.pit_id ∈ (l.filter (fun x => !isValid w x)).map (fun x => x.pit_id) :=
      List.mem_map.mpr ⟨r, List.mem_filter_of_mem hr (by simp [hv]), rfl⟩
    simp [hmem, hv]

/-- Overwriting `archive_mode` changes nothing the validity filter reads. -/
theorem recordStatus_set_mode (w : World) (r : PitRecord) (m : Option ArchiveMode) :
    recordStatus w { r with archive_mode := m } = recordStatus w r := rfl

/-- The scan is blind to `archive_mode`: rewriting every record's mode commutes
with the scan (the candidate is the mode-rewritten one, the prune list is
unchanged). -/
theorem selectAux_set_mode (w : World) (m : Option ArchiveMode) :
    ∀ (l : List PitRecord) (sh : Option PitRecord) (p : List Nat),
      selectAux w (sh.map (fun r => { r with archive_mode := m })) p
          (l.map (fun r => { r with archive_mode := m })) =
        ((selectAux w sh p l).1.map (fun r => { r with archive_mode := m }),
         (selectAux w sh p l).2) := by
  intro l
  induction l with
  | nil => intro sh p; simp [selectAux]
  | cons r rest ih =>
    intro sh p
    have hsr : recordStatus w { r with archive_mode := m } = recordStatus w r := rfl
    cases hs : recordStatus w r with
    | none =>
      simp only [List.map_cons, selectAux, hsr, hs]
      exact ih sh (p ++ [r.pit_id])
    | some val =>
      obtain ⟨pit, last⟩ := val
      cases sh with
      | none =>
        simp only [List.map_cons, Option.map_none', selectAux, hsr, hs]
        exact ih (some r) p
      | some s =>
        simp only [List.map_cons, Option.map_some', selectAux, hsr, hs]
        split
        · exact ih (some r) p
        · exact ih (some s) p

/-- Every pass's trace starts with the deletion of the pruned ids and continues
in one of four ways: 60-second back-off (no candidate), bare stop (candidate's
channel gone or not a text channel), crash (stored duration not an enum value),
or sleep-then-archive on the candidate. -/
theorem autoArchivalPass_shape (w : World) (l : List PitRecord) :
    ((select w l).1 = none ∧
      autoArchivalPass w l = [SchedOp.storeDelete (select w l).2, SchedOp.sleep 60]) ∨
    (∃ s, (select w l).1 = some s ∧
      autoArchivalPass w l = [SchedOp.storeDelete (select w l).2]) ∨
    (∃ s, (select w l).1 = some s ∧
      autoArchivalPass w l = [SchedOp.storeDelete (select w l).2, SchedOp.crash]) ∨
    ∃ s t, (select w l).1 = some s ∧
      autoArchivalPass w l =
        [SchedOp.storeDelete (select w l).2, SchedOp.sleep t,
         SchedOp.editChannel s.pit_id] := by
  cases h : (select w l).1 with
  | none =>
    left
    exact ⟨rfl, by simp [autoArchivalPass, h]⟩
  | some s =>
    cases hg : w.getChannel s.pit_id with
    | none =>
      right; left
      exact ⟨s, rfl, by simp [autoArchivalPass, h, hg]⟩
    | some pit =>
      cases hit : pit.isTextChannel with
      | false =>
        right; left
        exact ⟨s, rfl, by simp [autoArchivalPass, h, hg, hit]⟩
      | true =>
        cases hd : ArchiveDuration.fromValue s.archive_duration with
        | none =>
          right; right; left
          exact ⟨s, rfl, by simp [autoArchivalPass, h, hg, hit, hd]⟩
        | some d =>
          right; right; right
          refine ⟨s, (match s.last_message_sent_at with
            | some t => t
            | none => fallbackTimestamp pit) + d.value - w.now, rfl, ?_⟩
          simp [autoArchivalPass, h, hg, hit, hd]

/-- C1 (counterexample): the selection pass does not minimize the resolved
deadline. With two valid records, `recShortDuration` (deadline 86410) and
`recLongDuration` (deadline 2419205), the pass returns `recLongDuration` — it
compares raw `last_message_sent_at` timestamps (10 vs 5), ignoring each
record's own `archive_duration`. -/
theorem select_picks_smaller_timestamp_not_smaller_deadline :
    (select deadlineWorld [recShortDuration, recLongDuration]).1 = some recLongDuration ∧
    isValid deadlineWorld recShortDuration = true ∧
    resolvedDeadline deadlineWorld recShortDuration = some 86410 ∧
    resolvedDeadline deadlineWorld recLongDuration = some 2419205 := by
  refine ⟨?_, ?_, ?_, ?_⟩ <;> decide

/-- C1 (amended): for every non-empty set of records that pass the validity
filter, the selection pass returns a candidate, and any returned candidate is a
valid input record whose cached `last_message_sent_at` timestamp (not its
resolved deadline) is minimal among the valid records. -/
theorem select_returns_min_cached_timestamp (w : World) (l : List PitRecord) :
    ((∃ r ∈ l, isValid w r = true) → (select w l).1 ≠ none) ∧
    (∀ c, (select w l).1 = some c →
      isValid w c = true ∧ c ∈ l ∧
      ∀ r ∈ l, isValid w r = true → statusTime w c ≤ statusTime w r) := by
  constructor
  · intro h
    exact selectAux_fst_some_of_exists w l [] h
  · intro c hc
    exact select_min w l [] c hc

/-- Witness for the amended C1 theorem at a concrete input. -/
theorem select_returns_min_cached_timestamp_witness :
    isValid deadlineWorld recLongDuration = true ∧
    recLongDuration ∈ [recShortDuration, recLongDuration] ∧
    statusTime deadlineWorld recLongDuration ≤ statusTime deadlineWorld recShortDuration := by
  have h := (select_returns_min_cached_timestamp deadlineWorld
    [recShortDuration, recLongDuration]).2 recLongDuration (by decide)
  exact ⟨h.1, h.2.1, h.2.2 recShortDuration (by decide) (by decide)⟩

/-- C2 (counterexample): a successful automatic archival writes nothing to the
store. On a state where the pass fires (candidate channel 2), the full trace is
delete-prune, sleep, channel edit — no `UPDATE pits SET archive_mode` operation
occurs, in particular none setting "automatic". -/
theorem auto_archival_fire_writes_no_archive_mode :
    autoArchivalPass deadlineWorld [recShortDuration, recLongDuration] =
      [SchedOp.storeDelete [], SchedOp.sleep 2419205, SchedOp.editChannel 2] ∧
    SchedOp.storeUpdateMode 2 (some "automatic") ∉
      autoArchivalPass deadlineWorld [recShortDuration, recLongDuration] := by
  refine ⟨?_, ?_⟩ <;> decide

/-- C2 (amended): when the pass fires on a candidate it edits the candidate's
channel into the archive category with permissions synced to that category, and
it never issues any store write (`archive_mode` in particular stays untouched);
moreover no `ArchiveMode` member has value "automatic". -/
theorem auto_archival_executor_no_store_write (w : World) (l : List PitRecord) :
    (∀ op ∈ autoArchivalPass w l,
      (∀ id mo, op ≠ SchedOp.storeUpdateMode id mo) ∧
      (∀ id dur, op ≠ SchedOp.storeUpdateDuration id dur)) ∧
    (∀ m : ArchiveMode, ArchiveMode.value m ≠ "automatic") ∧
    (∀ id, SchedOp.editChannel id ∈ autoArchivalPass w l →
      ∃ s, (select w l).1 = some s ∧ id = s.pit_id) := by
  refine ⟨?_, ?_, ?_⟩
  · intro op hop
    rcases autoArchivalPass_shape w l with ⟨hc, h⟩ | ⟨s, hs, h⟩ | ⟨s, hs, h⟩ | ⟨s, t, hs, h⟩
    · rw [h] at hop
      simp only [List.mem_cons, List.not_mem_nil, or_false] at hop
      rcases hop with rfl | rfl
      · exact ⟨fun id mo => by simp, fun id dur => by simp⟩
      · exact ⟨fun id mo => by simp, fun id dur => by simp⟩
    · rw [h] at hop
      simp only [List.mem_cons, List.not_mem_nil, or_false] at hop
      rw [hop]
      exact ⟨fun id mo => by simp, fun id dur => by simp⟩
    · rw [h] at hop
      simp only [List.mem_cons, List.not_mem_nil, or_false] at hop
      rcases hop with rfl | rfl
      · exact ⟨fun id mo => by simp, fun id dur => by simp⟩
      · exact ⟨fun id mo => by simp, fun id dur => by simp⟩
    · rw [h] at hop
      simp only [List.mem_cons, List.not_mem_nil, or_false] at hop
      rcases hop with rfl | rfl | rfl
      · exact ⟨fun id mo => by simp, fun id dur => by simp⟩
      · exact ⟨fun id mo => by simp, fun id dur => by simp⟩
      · exact ⟨fun id mo => by simp, fun id dur => by simp⟩
  · intro m
    cases m <;> simp [ArchiveMode.value]
  · intro id hid
    rcases autoArchivalPass_shape w l with ⟨hc, h⟩ | ⟨s, hs, h⟩ | ⟨s, hs, h⟩ | ⟨s, t, hs, h⟩
    · rw [h] at hid; simp at hid
    · rw [h] at hid; simp at hid
    · rw [h] at hid; simp at hid
    · rw [h] at hid
      simp only [List.mem_cons, List.not_mem_nil, or_false] at hid
      rcases hid with hid | hid | hid
      · exact absurd hid (by simp)
      · exact absurd hid (by simp)
      · injection hid with hid
        exact ⟨s, hs, hid⟩

/-- Witness for the amended C2 theorem at a concrete firing input. -/
theorem auto_archival_executor_no_store_write_witness :
    ∃ s, (select deadlineWorld [recShortDuration, recLongDuration]).1 = some s ∧
      2 = s.pit_id :=
  (auto_archival_executor_no_store_write deadlineWorld
    [recShortDuration, recLongDuration]).2.2 2 (by decide)

/-- C3 (counterexample): a record with non-null `archive_mode` IS included in the
set deleted from the store. `recManualArchived` has `archive_mode = 'manual'`
and its channel sits in the archive category; the selection pass puts its id in
the deletion list (and returns no candidate). -/
theorem archived_manual_record_is_pruned :
    recManualArchived.archive_mode = some ArchiveMode.manual ∧
    recManualArchived.pit_id ∈ (select archivedWorld [recManualArchived]).2 ∧
    (select archivedWorld [recManualArchived]).1 = none := by
  refine ⟨?_, ?_, ?_⟩ <;> decide

/-- C3 (amended): the selection pass never consults `archive_mode` (rewriting
every record's mode leaves the candidate — up to the same rewriting — and the
pruned ids unchanged); a record whose channel sits in the archive category,
whatever its `archive_mode`, is never returned as candidate (every candidate's
channel is outside the archive category) but it is pruned: its id is included
in the set deleted from the store. -/
theorem select_ignores_archive_mode_and_prunes_archived
    (w : World) (l : List PitRecord) (m : Option ArchiveMode) :
    select w (l.map (fun r => { r with archive_mode := m })) =
      ((select w l).1.map (fun r => { r with archive_mode := m }), (select w l).2) ∧
    (∀ c, (select w l).1 = some c → ∀ ch, w.getChannel c.pit_id = some ch →
      ch.inArchiveCategory = false) ∧
    (∀ r ∈ l, ∀ ch, w.getChannel r.pit_id = some ch → ch.inArchiveCategory = true →
      r.pit_id ∈ (select w l).2) := by
  refine ⟨?_, ?_, ?_⟩
  · exact selectAux_set_mode w m l none []
  · intro c hc ch hch
    have hv := (select_min w l [] c hc).1
    obtain ⟨⟨pch, t⟩, hstat⟩ := Option.isSome_iff_exists.mp (by rw [isValid] at hv; exact hv)
    obtain ⟨hg, _, harch⟩ := recordStatus_channel w c pch t hstat
    rw [hch] at hg
    injection hg with hg
    rw [hg]
    exact harch
  · intro r hr ch hch harch
    have hstat : recordStatus w r = none := by
      simp [recordStatus, hch, harch]
    rw [select_prune]
    exact List.mem_map.mpr
      ⟨r, List.mem_filter_of_mem hr (by simp [isValid, hstat]), rfl⟩

/-- Witness for the amended C3 theorem at concrete inputs: the candidate's
channel (id 2 in `deadlineWorld`) is outside the archive category, and the
archived manual record's id is in the deletion set. -/
theorem select_ignores_archive_mode_and_prunes_archived_witness :
    (textChannel false none).inArchiveCategory = false ∧
    recManualArchived.pit_id ∈ (select archivedWorld [recManualArchived]).2 := by
  constructor
  · exact (select_ignores_archive_mode_and_prunes_archived deadlineWorld
      [recShortDuration, recLongDuration] none).2.1 recLongDuration (by decide)
      (textChannel false none) (by decide)
  · exact (select_ignores_archive_mode_and_prunes_archived archivedWorld
      [recManualArchived] none).2.2 recManualArchived (by decide)
      (textChannel true (some 7)) (by decide) (by decide)

/-- C4 (code evaluation): a record whose resolved deadline is already in the
past is pruned, not fired on. `recPastDeadline` has cached activity 500 and
duration 86400, so its deadline 86900 is long past at `now = 1000000`; the pass
deletes its row from the store, selects no candidate, and backs off — the
`last_message_sent_at <= NOW` arm of the filter (`pits.py` line 88) removes
every record whose cached activity is not in the future. -/
theorem past_deadline_record_pruned_eval :
    recPastDeadline.last_message_sent_at = some 500 ∧
    (500 : Int) + recPastDeadline.archive_duration < pastDeadlineWorld.now ∧
    select pastDeadlineWorld [recPastDeadline] = (none, [7]) ∧
    autoArchivalPass pastDeadlineWorld [recPastDeadline] =
      [SchedOp.storeDelete [7], SchedOp.sleep 60] := by
  refine ⟨?_, ?_, ?_, ?_⟩ <;> decide

/-- C5 (code evaluation): a record with no cached `last_message_sent_at` is
pruned by the filter (`pits.py` line 87) before the live fallback of lines
100-106/129-135 can ever run, even though its channel exists and has a latest
message (timestamp 123, which `fallbackTimestamp` would return): the pass
deletes the row and selects no candidate. -/
theorem null_cache_record_pruned_eval :
    recNullCache.last_message_sent_at = none ∧
    World.getChannel nullCacheWorld recNullCache.pit_id =
      some (textChannel false (some 123)) ∧
    fallbackTimestamp (textChannel false (some 123)) = 123 ∧
    select nullCacheWorld [recNullCache] = (none, [9]) ∧
    autoArchivalPass nullCacheWorld [recNullCache] =
      [SchedOp.storeDelete [9], SchedOp.sleep 60] := by
  refine ⟨?_, ?_, ?_, ?_, ?_⟩ <;> decide

/-- C6 (counterexample): the `pit archive` command changes `archive_mode` (it
writes `'manual'`) but never invokes the restart trigger
(`self.auto_archival.restart()`), so not every mode-changing operation restarts
the scheduler loop. -/
theorem pit_archive_changes_mode_without_restart :
    SchedOp.storeUpdateMode 5 (some "manual") ∈ pit_archive_ops 5 ∧
    SchedOp.restartScheduler ∉ pit_archive_ops 5 := by
  refine ⟨?_, ?_⟩ <;> decide

/-- C6 (amended): of the owner/counselor operations that change
`archive_duration` or `archive_mode`, only the set-duration command invokes the
restart trigger; the manual archive and unarchive commands and the automatic
leave/rejoin handlers change `archive_mode` without restarting the scheduler
loop. -/
theorem restart_trigger_only_from_set_duration (id : Nat) (d : ArchiveDuration) :
    SchedOp.restartScheduler ∈ pit_set_duration_ops id d ∧
    SchedOp.restartScheduler ∉ pit_archive_ops id ∧
    SchedOp.restartScheduler ∉ pit_unarchive_ops id ∧
    SchedOp.restartScheduler ∉ pit_auto_archive_on_member_remove_ops id ∧
    SchedOp.restartScheduler ∉ pit_auto_unarchive_on_member_join_ops id := by
  refine ⟨?_, ?_, ?_, ?_, ?_⟩ <;>
    simp [pit_set_duration_ops, pit_archive_ops, pit_unarchive_ops,
      pit_auto_archive_on_member_remove_ops, pit_auto_unarchive_on_member_join_ops]

/-- Witness for the amended C6 theorem at a concrete input. -/
theorem restart_trigger_only_from_set_duration_witness :
    SchedOp.restartScheduler ∈ pit_set_duration_ops 5 ArchiveDuration.threeDays :=
  (restart_trigger_only_from_set_duration 5 ArchiveDuration.threeDays).1

/-- C7: on every pass, the deletion of the pruned ids is the first store
operation in the trace — it is issued unconditionally, before the pass decides
what to do with the candidate and also when no candidate exists at all. -/
theorem prune_deletion_issued_first_unconditionally (w : World) (l : List PitRecord) :
    ∃ rest, autoArchivalPass w l = SchedOp.storeDelete (select w l).2 :: rest := by
  rcases autoArchivalPass_shape w l with ⟨hc, h⟩ | ⟨s, hs, h⟩ | ⟨s, hs, h⟩ | ⟨s, t, hs, h⟩
  · exact ⟨[SchedOp.sleep 60], h⟩
  · exact ⟨[], h⟩
  · exact ⟨[SchedOp.crash], h⟩
  · exact ⟨[SchedOp.sleep t, SchedOp.editChannel s.pit_id], h⟩

/-- C8: running the selection pass again on the store left by a first pass (its
pruned rows deleted), with the same external state (channel cache and clock) and
no firing in between, yields the same candidate and an empty second prune set —
assuming the table's primary-key constraint (pairwise distinct `pit_id`s). -/
theorem select_idempotent (w : World) (l : List PitRecord)
    (hnd : (l.map (fun r => r.pit_id)).Nodup) :
    select w (applyDelete l (select w l).2) = ((select w l).1, []) := by
  rw [applyDelete_select w l hnd, Prod.ext_iff]
  constructor
  · exact selectAux_fst_filter w l none []
  · show (selectAux w none [] (l.filter (fun r => isValid w r))).2 = _
    rw [selectAux_prune]
    have hnil : (l.filter (fun r => isValid w r)).filter (fun r => !isValid w r) = [] := by
      rw [List.filter_eq_nil_iff]
      intro a ha
      have hav := (List.mem_filter.mp ha).2
      simp [hav]
    rw [hnil]
    simp

/-- Witness for the C8 theorem at a concrete input. -/
theorem select_idempotent_witness :
    select deadlineWorld
        (applyDelete [recShortDuration, recLongDuration]
          (select deadlineWorld [recShortDuration, recLongDuration]).2) =
      ((select deadlineWorld [recShortDuration, recLongDuration]).1, []) :=
  select_idempotent deadlineWorld [recShortDuration, recLongDuration] (by decide)

/-- C9: whenever the pass finds zero valid records, it deletes all their ids and
sleeps exactly 60 seconds before the loop re-selects — a fixed interval that is
strictly positive and between ten seconds and a minute. -/
theorem no_candidate_backoff_sixty_seconds (w : World) (l : List PitRecord)
    (h : ∀ r ∈ l, isValid w r = false) :
    autoArchivalPass w l =
      [SchedOp.storeDelete (l.map (fun r => r.pit_id)), SchedOp.sleep 60] ∧
    (0 : Int) < 60 ∧ (10 : Int) ≤ 60 ∧ (60 : Int) ≤ 60 := by
  have hc : (select w l).1 = none := selectAux_none_of_all_invalid w l h []
  have hp : (select w l).2 = l.map (fun r => r.pit_id) := by
    rw [select_prune]
    have : l.filter (fun r => !isValid w r) = l := by
      rw [List.filter_eq_self]
      intro a ha
      simp [h a ha]
    rw [this]
  refine ⟨?_, by norm_num, by norm_num, le_refl _⟩
  rcases autoArchivalPass_shape w l with ⟨_, hs⟩ | ⟨s, hss, hs⟩ | ⟨s, hss, hs⟩ |
    ⟨s, t, hss, hs⟩
  · rw [hs, hp]
  · rw [hc] at hss; exact absurd hss (by simp)
  · rw [hc] at hss; exact absurd hss (by simp)
  · rw [hc] at hss; exact absurd hss (by simp)

/-- Witness for the C9 theorem at a concrete input. -/
theorem no_candidate_backoff_sixty_seconds_witness :
    autoArchivalPass pastDeadlineWorld [recPastDeadline] =
      [SchedOp.storeDelete [7], SchedOp.sleep 60] := by
  have h := no_candidate_backoff_sixty_seconds pastDeadlineWorld [recPastDeadline]
    (by decide)
  exact h.1.trans (by decide)

/-- C10: a command argument that parses as an integer outside
{86400, 259200, 604800, 2419200} makes `ArchiveDuration.convert` fail with the
uncaught `ValueError` of the enum lookup, while a non-integer argument fails
with `commands.BadArgument` — two distinct error paths. -/
theorem convert_out_of_set_integer_raises_value_error (s t : String) (n : Int) :
    (pyParseInt s = some n →
      n ≠ 86400 → n ≠ 259200 → n ≠ 604800 → n ≠ 2419200 →
      ArchiveDuration.convert s = .error .valueError) ∧
    (pyParseInt t = none →
      ArchiveDuration.convert t =
        .error (.badArgument ("Invalid archive duration passed: " ++ t))) := by
  constructor
  · intro hp h1 h2 h3 h4
    simp only [ArchiveDuration.convert, hp]
    simp [ArchiveDuration.fromValue, h1, h2, h3, h4]
  · intro hp
    simp only [ArchiveDuration.convert, hp]

/-- Witness for the C10 theorem at concrete inputs ("42" and "abc"). -/
theorem convert_out_of_set_integer_raises_value_error_witness :
    ArchiveDuration.convert "42" = .error .valueError ∧
    ArchiveDuration.convert "abc" =
      .error (.badArgument ("Invalid archive duration passed: " ++ "abc")) := by
  constructor
  · exact (convert_out_of_set_integer_raises_value_error "42" "abc" 42).1 (by rfl)
      (by decide) (by decide) (by decide) (by decide)
  · exact (convert_out_of_set_integer_raises_value_error "42" "abc" 42).2 (by rfl)

end Pits
